/-
  Verification of the tulip-scout repository against its specification.

  Shallow embedding of:
  - src/src/utils/rate_limiter.py   (TokenBucket, RateLimiter)
  - src/src/config.py               (Settings defaults used by the limiter)
  - src/src/agents/hunter_v2.py     (OSINT protocols, countries, sweep, lead parsing)
  - src/scripts/hunter_v2_live.py   (URL / company-info extraction)

  Real time is modelled as exact rational seconds: `datetime.utcnow()` values
  become explicit `now : ℚ` parameters, and `asyncio.sleep(d)` advances the
  modelled clock by exactly `d`.  Python floats are modelled as ℚ.
-/
import Mathlib

namespace TulipScout

/-! ## Token bucket (src/src/utils/rate_limiter.py, class TokenBucket) -/

/-- State of `TokenBucket`: `capacity`, `tokens`, `last_refill`, `refill_rate`
(tokens per second).  `__post_init__` sets `tokens = capacity`; we build
initial states explicitly with that value. -/
structure TokenBucket where
  capacity : ℚ
  tokens : ℚ
  lastRefill : ℚ
  refillRate : ℚ
deriving DecidableEq, Repr

/-- `TokenBucket.refill`: add `elapsed * refill_rate` tokens, capped at
`capacity`, and advance `last_refill` to `now`. -/
def TokenBucket.refill (b : TokenBucket) (now : ℚ) : TokenBucket :=
  let elapsed := now - b.lastRefill
  let newTokens := elapsed * b.refillRate
  { b with tokens := min b.capacity (b.tokens + newTokens), lastRefill := now }

/-- Result of an (async) `consume` call: the bucket state after the call, the
time at which the call returns, and the returned boolean. -/
structure ConsumeResult where
  bucket : TokenBucket
  retTime : ℚ
  retVal : Bool
deriving DecidableEq, Repr

/-- `TokenBucket.consume(tokens)` invoked at time `now`: refill; if enough
tokens, decrement and return `True` immediately; otherwise sleep
`(tokens - self.tokens) / refill_rate` seconds, refill again, decrement and
return `True`. -/
def TokenBucket.consume (b : TokenBucket) (n : ℚ) (now : ℚ) : ConsumeResult :=
  let b1 := b.refill now
  if n ≤ b1.tokens then
    ⟨{ b1 with tokens := b1.tokens - n }, now, true⟩
  else
    let tokensNeeded := n - b1.tokens
    let waitTime := tokensNeeded / b1.refillRate
    let t2 := now + waitTime
    let b2 := b1.refill t2
    ⟨{ b2 with tokens := b2.tokens - n }, t2, true⟩

/-- A bucket operation together with the wall-clock time at which it is
invoked: either a `refill()` call or a `consume(n)` call. -/
inductive BucketOp where
  | refillOp (now : ℚ)
  | consumeOp (n : ℚ) (now : ℚ)
deriving DecidableEq, Repr

/-- Apply one operation to a bucket. -/
def applyOp (b : TokenBucket) : BucketOp → TokenBucket
  | .refillOp t => b.refill t
  | .consumeOp n t => (b.consume n t).bucket

/-- Run a sequence of operations. -/
def runOps (b : TokenBucket) (ops : List BucketOp) : TokenBucket :=
  ops.foldl applyOp b

/-- The invocation time of an operation. -/
def opTime : BucketOp → ℚ
  | .refillOp t => t
  | .consumeOp _ t => t

/-- A sequence of operations is valid when each operation is invoked no
earlier than the bucket clock left by the previous one, and each `consume`
requests an amount between `0` and the bucket capacity. -/
def ValidOps (b : TokenBucket) : List BucketOp → Prop
  | [] => True
  | op :: rest =>
      b.lastRefill ≤ opTime op ∧
      (∀ n t, op = BucketOp.consumeOp n t → 0 ≤ n ∧ n ≤ b.capacity) ∧
      ValidOps (applyOp b op) rest

/-! ### Basic bucket lemmas -/

theorem refill_capacity (b : TokenBucket) (now : ℚ) :
    (b.refill now).capacity = b.capacity := rfl

theorem refill_rate_eq (b : TokenBucket) (now : ℚ) :
    (b.refill now).refillRate = b.refillRate := rfl

theorem refill_lastRefill (b : TokenBucket) (now : ℚ) :
    (b.refill now).lastRefill = now := rfl

theorem refill_tokens (b : TokenBucket) (now : ℚ) :
    (b.refill now).tokens = min b.capacity (b.tokens + (now - b.lastRefill) * b.refillRate) := rfl

theorem consume_capacity (b : TokenBucket) (n now : ℚ) :
    ((b.consume n now).bucket).capacity = b.capacity := by
  by_cases h : n ≤ (b.refill now).tokens <;> simp [TokenBucket.consume, h, refill_capacity, refill_rate_eq, refill_lastRefill]

theorem consume_rate (b : TokenBucket) (n now : ℚ) :
    ((b.consume n now).bucket).refillRate = b.refillRate := by
  by_cases h : n ≤ (b.refill now).tokens <;> simp [TokenBucket.consume, h, refill_capacity, refill_rate_eq, refill_lastRefill]

theorem consume_retVal (b : TokenBucket) (n now : ℚ) :
    (b.consume n now).retVal = true := by
  by_cases h : n ≤ (b.refill now).tokens <;> simp [TokenBucket.consume, h]

/-- The return time of `consume` is never before the invocation time, as long
as the refill rate is positive. -/
theorem consume_retTime_ge (b : TokenBucket) (n now : ℚ) (hr : 0 < b.refillRate) :
    now ≤ (b.consume n now).retTime := by
  by_cases h : n ≤ (b.refill now).tokens <;> simp [TokenBucket.consume, h]
  have hlt : (b.refill now).tokens < n := not_le.mp h
  have h0 : 0 ≤ (n - (b.refill now).tokens) / (b.refill now).refillRate := by
    apply div_nonneg (by linarith)
    rw [refill_rate_eq]; exact le_of_lt hr
  linarith

/-- The bucket clock (`last_refill`) after `consume` equals the return time. -/
theorem consume_lastRefill (b : TokenBucket) (n now : ℚ) :
    ((b.consume n now).bucket).lastRefill = (b.consume n now).retTime := by
  by_cases h : n ≤ (b.refill now).tokens <;> simp [TokenBucket.consume, h, refill_capacity, refill_rate_eq, refill_lastRefill]

/-- Exact evaluation of the waiting branch of `consume`: when the refilled
bucket lacks tokens, the call returns at `now + (n - tokens)/refill_rate` and
the bucket ends with `min capacity n - n` tokens. -/
theorem consume_wait_eval (b : TokenBucket) (n now : ℚ) (hr : b.refillRate ≠ 0)
    (h : ¬ n ≤ (b.refill now).tokens) :
    (b.consume n now).retTime = now + (n - (b.refill now).tokens) / b.refillRate ∧
    ((b.consume n now).bucket).tokens = min b.capacity n - n := by
  simp only [TokenBucket.consume, h, if_false]
  refine ⟨rfl, ?_⟩
  have h1 : ((b.refill now).refill
      (now + (n - (b.refill now).tokens) / (b.refill now).refillRate)).tokens
      = min b.capacity n := by
    rw [refill_tokens, refill_capacity, refill_lastRefill, refill_rate_eq]
    have h2 : (now + (n - (b.refill now).tokens) / b.refillRate - now) * b.refillRate
        = n - (b.refill now).tokens := by
      field_simp
      ring
    rw [h2]
    ring_nf
  simp only [h1]

/-- C2 (amended): for `0 < refill_rate` and a request `0 ≤ n ≤ capacity`,
`consume(n)` always returns `True`; immediately at `now` when the refilled
bucket has `n` tokens (decrementing by `n`), and otherwise exactly at
`now + (n - tokens)/refill_rate`; afterwards `tokens ≥ 0`; from a refilled
token count of `0` it returns exactly `n / refill_rate` seconds late. -/
theorem consume_delivers (b : TokenBucket) (n now : ℚ)
    (hr : 0 < b.refillRate) (hn0 : 0 ≤ n) (hnc : n ≤ b.capacity) :
    (b.consume n now).retVal = true ∧
    0 ≤ ((b.consume n now).bucket).tokens ∧
    now ≤ (b.consume n now).retTime ∧
    (n ≤ (b.refill now).tokens →
      (b.consume n now).retTime = now ∧
      ((b.consume n now).bucket).tokens = (b.refill now).tokens - n) ∧
    ((b.refill now).tokens < n →
      (b.consume n now).retTime = now + (n - (b.refill now).tokens) / b.refillRate) ∧
    ((b.refill now).tokens = 0 → now + n / b.refillRate ≤ (b.consume n now).retTime) := by
  have hr' : b.refillRate ≠ 0 := ne_of_gt hr
  refine ⟨consume_retVal b n now, ?_, consume_retTime_ge b n now hr, ?_, ?_, ?_⟩
  · by_cases h : n ≤ (b.refill now).tokens
    · simp only [TokenBucket.consume, h, if_true]
      linarith
    · have := (consume_wait_eval b n now hr' h).2
      rw [this, min_eq_right hnc]
      linarith
  · intro h
    simp [TokenBucket.consume, h]
  · intro h
    exact (consume_wait_eval b n now hr' (not_le.mpr h)).1
  · intro h0
    by_cases h : n ≤ (b.refill now).tokens
    · have hn' : n = 0 := le_antisymm (h0 ▸ h) hn0
      subst hn'
      simp only [TokenBucket.consume, h, if_true]
      simp
    · have := (consume_wait_eval b n now hr' h).1
      rw [this, h0]
      simp

/-- C2 counterexample: `consume(2)` on a bucket with `capacity = 1`,
`tokens = 0`, `refill_rate = 1 > 0` returns (it always does), but afterwards
`tokens = -1 < 0`, refuting the claimed `tokens ≥ 0` for arbitrary `n`. -/
theorem consume_negative_tokens_cex :
    ((TokenBucket.mk 1 0 0 1).consume 2 0).bucket.tokens = -1 ∧
    ¬ (0 ≤ ((TokenBucket.mk 1 0 0 1).consume 2 0).bucket.tokens) := by
  norm_num [TokenBucket.consume, TokenBucket.refill]

/-- Witness for `consume_delivers` at the limiter's initial daily bucket
(capacity 40, rate 40/86400 = 1/2160) with `n = 1` at time `0`. -/
theorem consume_delivers_witness :
    (0 : ℚ) < 1/2160 ∧ (0 : ℚ) ≤ 1 ∧ (1 : ℚ) ≤ 40 ∧
    (((TokenBucket.mk 40 40 0 (1/2160)).consume 1 0).retVal = true ∧
     0 ≤ (((TokenBucket.mk 40 40 0 (1/2160)).consume 1 0).bucket).tokens ∧
     (0:ℚ) ≤ ((TokenBucket.mk 40 40 0 (1/2160)).consume 1 0).retTime ∧
     (1 ≤ ((TokenBucket.mk 40 40 0 (1/2160)).refill 0).tokens →
       ((TokenBucket.mk 40 40 0 (1/2160)).consume 1 0).retTime = 0 ∧
       (((TokenBucket.mk 40 40 0 (1/2160)).consume 1 0).bucket).tokens
         = ((TokenBucket.mk 40 40 0 (1/2160)).refill 0).tokens - 1) ∧
     (((TokenBucket.mk 40 40 0 (1/2160)).refill 0).tokens < 1 →
       ((TokenBucket.mk 40 40 0 (1/2160)).consume 1 0).retTime
         = 0 + (1 - ((TokenBucket.mk 40 40 0 (1/2160)).refill 0).tokens) / (1/2160)) ∧
     (((TokenBucket.mk 40 40 0 (1/2160)).refill 0).tokens = 0 →
       0 + 1 / (1/2160) ≤ ((TokenBucket.mk 40 40 0 (1/2160)).consume 1 0).retTime)) :=
  ⟨by norm_num, by norm_num, by norm_num,
   consume_delivers (TokenBucket.mk 40 40 0 (1/2160)) 1 0 (by norm_num) (by norm_num) (by norm_num)⟩

/-- One valid operation preserves `0 ≤ tokens ≤ capacity` and the bucket's
constant fields. -/
theorem applyOp_invariant (b : TokenBucket) (op : BucketOp)
    (hr : 0 < b.refillRate) (h0 : 0 ≤ b.tokens) (hc : b.tokens ≤ b.capacity)
    (ht : b.lastRefill ≤ opTime op)
    (hn : ∀ n t, op = BucketOp.consumeOp n t → 0 ≤ n ∧ n ≤ b.capacity) :
    0 ≤ (applyOp b op).tokens ∧ (applyOp b op).tokens ≤ (applyOp b op).capacity ∧
    (applyOp b op).capacity = b.capacity ∧ (applyOp b op).refillRate = b.refillRate := by
  have hcap0 : 0 ≤ b.capacity := le_trans h0 hc
  cases op with
  | refillOp t =>
    simp only [applyOp, refill_tokens, refill_capacity, refill_rate_eq]
    have helapsed : 0 ≤ (t - b.lastRefill) * b.refillRate := by
      apply mul_nonneg _ (le_of_lt hr)
      simp only [opTime] at ht
      linarith
    exact ⟨le_min hcap0 (by linarith), min_le_left _ _, trivial, trivial⟩
  | consumeOp n t =>
    obtain ⟨hn0, hnc⟩ := hn n t rfl
    simp only [applyOp]
    rw [consume_capacity, consume_rate]
    refine ⟨?_, ?_, rfl, rfl⟩
    · by_cases h : n ≤ (b.refill t).tokens
      · simp only [TokenBucket.consume, h, if_true]
        linarith
      · have := (consume_wait_eval b n t (ne_of_gt hr) h).2
        rw [this, min_eq_right hnc]
        linarith
    · by_cases h : n ≤ (b.refill t).tokens
      · simp only [TokenBucket.consume, h, if_true]
        have : (b.refill t).tokens ≤ b.capacity := by
          rw [refill_tokens]; exact min_le_left _ _
        linarith
      · have := (consume_wait_eval b n t (ne_of_gt hr) h).2
        rw [this, min_eq_right hnc]
        linarith

/-- Invariant propagation over a whole operation sequence. -/
theorem runOps_invariant (ops : List BucketOp) :
    ∀ b : TokenBucket, 0 < b.refillRate → 0 ≤ b.tokens → b.tokens ≤ b.capacity →
    ValidOps b ops →
    0 ≤ (runOps b ops).tokens ∧ (runOps b ops).tokens ≤ b.capacity := by
  induction ops with
  | nil => intro b _ h0 hc _; exact ⟨h0, hc⟩
  | cons op rest ih =>
    intro b hr h0 hc hv
    obtain ⟨ht, hn, hv'⟩ := hv
    have step := applyOp_invariant b op hr h0 hc ht hn
    have hrate : 0 < (applyOp b op).refillRate := by rw [step.2.2.2]; exact hr
    have hres := ih (applyOp b op) hrate step.1 step.2.1 hv'
    have hrun : runOps b (op :: rest) = runOps (applyOp b op) rest := rfl
    rw [hrun]
    exact ⟨hres.1, le_trans hres.2 (le_of_eq step.2.2.1)⟩

/-- C3 (amended): across every valid sequence of `refill()`/`consume(n)`
operations (invocation times at or after the bucket clock, each consume
requesting `0 ≤ n ≤ capacity`), `0 ≤ tokens ≤ capacity` is maintained; and
each `refill()` sets `tokens` to exactly
`min(capacity, tokens_before + elapsed * refill_rate)` while advancing
`last_refill` to `now`. -/
theorem bucket_invariant (b : TokenBucket) (ops : List BucketOp)
    (hr : 0 < b.refillRate) (h0 : 0 ≤ b.tokens) (hc : b.tokens ≤ b.capacity)
    (hv : ValidOps b ops) :
    (0 ≤ (runOps b ops).tokens ∧ (runOps b ops).tokens ≤ b.capacity) ∧
    (∀ now : ℚ,
      (b.refill now).tokens = min b.capacity (b.tokens + (now - b.lastRefill) * b.refillRate) ∧
      (b.refill now).lastRefill = now) :=
  ⟨runOps_invariant ops b hr h0 hc hv, fun _ => ⟨rfl, rfl⟩⟩

/-- C3 counterexample: the single-operation sequence `consume(2)` at time `0`
on the bucket `⟨capacity 1, tokens 1, last_refill 0, rate 1⟩` (a state with
`0 ≤ tokens ≤ capacity` and a non-retroactive invocation time) ends with
`tokens = -1`, violating `0 ≤ tokens`. -/
theorem bucket_invariant_cex :
    (runOps (TokenBucket.mk 1 1 0 1) [BucketOp.consumeOp 2 0]).tokens = -1 ∧
    ¬ (0 ≤ (runOps (TokenBucket.mk 1 1 0 1) [BucketOp.consumeOp 2 0]).tokens) := by
  norm_num [runOps, applyOp, TokenBucket.consume, TokenBucket.refill]

/-- Witness for `bucket_invariant`: the initial daily bucket under a `refill`
at `t = 5` followed by `consume(1)` at `t = 5`. -/
theorem bucket_invariant_witness :
    ((0:ℚ) < 1/2160) ∧
    ((0 ≤ (runOps (TokenBucket.mk 40 40 0 (1/2160))
          [BucketOp.refillOp 5, BucketOp.consumeOp 1 5]).tokens ∧
      (runOps (TokenBucket.mk 40 40 0 (1/2160))
          [BucketOp.refillOp 5, BucketOp.consumeOp 1 5]).tokens ≤ 40) ∧
     (∀ now : ℚ,
       ((TokenBucket.mk 40 40 0 (1/2160)).refill now).tokens
         = min 40 (40 + (now - 0) * (1/2160)) ∧
       ((TokenBucket.mk 40 40 0 (1/2160)).refill now).lastRefill = now)) := by
  refine ⟨by norm_num, ?_⟩
  have hv : ValidOps (TokenBucket.mk 40 40 0 (1/2160))
      [BucketOp.refillOp 5, BucketOp.consumeOp 1 5] := by
    refine ⟨by norm_num [opTime], ?_, ?_, ?_, trivial⟩
    · intro n t h
      exact BucketOp.noConfusion h
    · norm_num [applyOp, TokenBucket.refill, opTime]
    · intro n t h
      injection h with h1 h2
      subst h1
      refine ⟨by norm_num, ?_⟩
      norm_num [applyOp, TokenBucket.refill]
  exact bucket_invariant (TokenBucket.mk 40 40 0 (1/2160))
    [BucketOp.refillOp 5, BucketOp.consumeOp 1 5]
    (by norm_num) (by norm_num) (by norm_num) hv

/-! ## Settings (src/src/config.py) and RateLimiter (src/src/utils/rate_limiter.py) -/

/-- The limiter-relevant fields of `Settings`, with their config defaults:
`linkedin_daily_limit = 40`, `linkedin_hourly_limit = 10`,
`linkedin_min_delay_seconds = 10`, `linkedin_max_delay_seconds = 15`. -/
structure Settings where
  linkedin_daily_limit : ℚ
  linkedin_hourly_limit : ℚ
  linkedin_min_delay_seconds : ℚ
  linkedin_max_delay_seconds : ℚ
deriving DecidableEq, Repr

/-- The global `settings` instance with default values. -/
def settings : Settings := ⟨40, 10, 10, 15⟩

/-- `dict.get(key, default)`-style association-list lookup (Python dict keys
are unique; lookup finds the entry for the key). -/
def lookupKey {α : Type} : List (String × α) → String → Option α
  | [], _ => none
  | (k, v) :: rest, key => if key = k then some v else lookupKey rest key

/-- State of `RateLimiter`: both buckets, `last_request_time`, and the
`region_delays` table. -/
structure RateLimiter where
  daily : TokenBucket
  hourly : TokenBucket
  lastRequestTime : ℚ
  regionDelays : List (String × ℚ)
deriving DecidableEq, Repr

/-- `RateLimiter.__init__` at time `now`: daily bucket capacity 40 with rate
`40 / (24*60*60)`, hourly bucket capacity 10 with rate `10 / (60*60)`, both
full, `last_request_time = now`, and the regional delay table
`{"Eastern_Europe": 12, "Far_East": 15}`. -/
def mkRateLimiter (now : ℚ) : RateLimiter :=
  { daily := { capacity := settings.linkedin_daily_limit,
               tokens := settings.linkedin_daily_limit,
               lastRefill := now,
               refillRate := settings.linkedin_daily_limit / (24 * 60 * 60) },
    hourly := { capacity := settings.linkedin_hourly_limit,
                tokens := settings.linkedin_hourly_limit,
                lastRefill := now,
                refillRate := settings.linkedin_hourly_limit / (60 * 60) },
    lastRequestTime := now,
    regionDelays := [("Eastern_Europe", 12), ("Far_East", 15)] }

/-- `self.region_delays.get(region, settings.linkedin_min_delay_seconds)`. -/
def minDelayFor (rl : RateLimiter) (region : String) : ℚ :=
  (lookupKey rl.regionDelays region).getD settings.linkedin_min_delay_seconds

/-- Observable limiter actions during `acquire`: the min-delay sleep, and the
two bucket consumptions. -/
inductive LimEvent where
  | sleepEv (d : ℚ)
  | consumeDailyEv (n : ℚ)
  | consumeHourlyEv (n : ℚ)
deriving DecidableEq, Repr

/-- Recognizer for daily-bucket consumption events. -/
def LimEvent.isDaily : LimEvent → Bool
  | .consumeDailyEv _ => true
  | _ => false

/-- Recognizer for hourly-bucket consumption events. -/
def LimEvent.isHourly : LimEvent → Bool
  | .consumeHourlyEv _ => true
  | _ => false

/-- Result of an `acquire` call: new limiter state, return time, and the
trace of limiter actions performed. -/
structure AcquireResult where
  limiter : RateLimiter
  retTime : ℚ
  trace : List LimEvent
deriving DecidableEq, Repr

/-- `RateLimiter.acquire(region)` invoked at time `now`: sleep out the
remaining minimum delay since `last_request_time` if any, then
`daily_bucket.consume(1)`, then `hourly_bucket.consume(1)`, then set
`last_request_time` to the current time. -/
def RateLimiter.acquire (rl : RateLimiter) (region : String) (now : ℚ) : AcquireResult :=
  let minDelay := minDelayFor rl region
  let elapsed := now - rl.lastRequestTime
  let t1 := if elapsed < minDelay then now + (minDelay - elapsed) else now
  let ev1 : List LimEvent := if elapsed < minDelay then [.sleepEv (minDelay - elapsed)] else []
  let cd := rl.daily.consume 1 t1
  let ch := rl.hourly.consume 1 cd.retTime
  { limiter := { daily := cd.bucket, hourly := ch.bucket,
                 lastRequestTime := ch.retTime, regionDelays := rl.regionDelays },
    retTime := ch.retTime,
    trace := ev1 ++ [.consumeDailyEv 1, .consumeHourlyEv 1] }

/-- `acquire` never returns before `last_request_time + minDelay`. -/
theorem acquire_spacing (rl : RateLimiter) (region : String) (now : ℚ)
    (hd : 0 < rl.daily.refillRate) (hh : 0 < rl.hourly.refillRate) :
    rl.lastRequestTime + minDelayFor rl region ≤ (rl.acquire region now).retTime := by
  set md := minDelayFor rl region with hmd
  have key : ∀ t1 : ℚ, rl.lastRequestTime + md ≤ t1 →
      rl.lastRequestTime + md ≤ (rl.hourly.consume 1 ((rl.daily.consume 1 t1).retTime)).retTime :=
    fun t1 h => le_trans (le_trans h (consume_retTime_ge _ 1 t1 hd))
      (consume_retTime_ge _ 1 _ hh)
  show rl.lastRequestTime + md ≤
    (rl.hourly.consume 1 ((rl.daily.consume 1
      (if now - rl.lastRequestTime < md then now + (md - (now - rl.lastRequestTime)) else now)).retTime)).retTime
  by_cases hed : now - rl.lastRequestTime < md
  · rw [if_pos hed]
    exact key _ (by linarith)
  · rw [if_neg hed]
    exact key _ (by linarith [not_lt.mp hed])

/-- `acquire` never returns before its invocation time. -/
theorem acquire_retTime_ge (rl : RateLimiter) (region : String) (now : ℚ)
    (hd : 0 < rl.daily.refillRate) (hh : 0 < rl.hourly.refillRate) :
    now ≤ (rl.acquire region now).retTime := by
  set md := minDelayFor rl region with hmd
  have key : ∀ t1 : ℚ, now ≤ t1 →
      now ≤ (rl.hourly.consume 1 ((rl.daily.consume 1 t1).retTime)).retTime :=
    fun t1 h => le_trans (le_trans h (consume_retTime_ge _ 1 t1 hd))
      (consume_retTime_ge _ 1 _ hh)
  show now ≤
    (rl.hourly.consume 1 ((rl.daily.consume 1
      (if now - rl.lastRequestTime < md then now + (md - (now - rl.lastRequestTime)) else now)).retTime)).retTime
  by_cases hed : now - rl.lastRequestTime < md
  · rw [if_pos hed]
    exact key _ (by linarith)
  · rw [if_neg hed]
    exact key _ (by linarith)

theorem acquire_lastRequestTime (rl : RateLimiter) (region : String) (now : ℚ) :
    ((rl.acquire region now).limiter).lastRequestTime = (rl.acquire region now).retTime := rfl

theorem acquire_regionDelays (rl : RateLimiter) (region : String) (now : ℚ) :
    ((rl.acquire region now).limiter).regionDelays = rl.regionDelays := rfl

theorem acquire_daily_rate (rl : RateLimiter) (region : String) (now : ℚ) :
    ((rl.acquire region now).limiter).daily.refillRate = rl.daily.refillRate := by
  simp [RateLimiter.acquire, consume_rate]

theorem acquire_hourly_rate (rl : RateLimiter) (region : String) (now : ℚ) :
    ((rl.acquire region now).limiter).hourly.refillRate = rl.hourly.refillRate := by
  simp [RateLimiter.acquire, consume_rate]

/-- The spec's conjunctive-gating scenario, corrected: daily bucket with 0
remaining tokens, hourly bucket with 5 remaining tokens, last request long
past (so the min-delay gate is already satisfied). -/
def gatingScenario : RateLimiter :=
  { mkRateLimiter 0 with
    daily := { (mkRateLimiter 0).daily with tokens := 0 },
    hourly := { (mkRateLimiter 0).hourly with tokens := 5 },
    lastRequestTime := -100 }

/-- The scenario exactly as the spec states it: daily bucket with 1 remaining
token, hourly bucket with 5 remaining tokens. -/
def gatingScenarioOneToken : RateLimiter :=
  { mkRateLimiter 0 with
    daily := { (mkRateLimiter 0).daily with tokens := 1 },
    hourly := { (mkRateLimiter 0).hourly with tokens := 5 },
    lastRequestTime := -100 }

/-- C4 (amended): every `acquire` performs exactly one daily-bucket
consumption of 1 and exactly one hourly-bucket consumption of 1, and returns
no earlier than `last_request_time + minDelay(region)`; and in the corrected
scenario — daily bucket with **0** remaining tokens, hourly with 5 — the call
waits the full daily refill time (2160 s for one token at 40/day) even though
the hourly bucket is not exhausted. -/
theorem acquire_gating (rl : RateLimiter) (region : String) (now : ℚ)
    (hd : 0 < rl.daily.refillRate) (hh : 0 < rl.hourly.refillRate) :
    ((rl.acquire region now).trace.filter LimEvent.isDaily) = [LimEvent.consumeDailyEv 1] ∧
    ((rl.acquire region now).trace.filter LimEvent.isHourly) = [LimEvent.consumeHourlyEv 1] ∧
    rl.lastRequestTime + minDelayFor rl region ≤ (rl.acquire region now).retTime ∧
    ((gatingScenario.acquire "Eastern_Europe" 0).retTime = 0 + 2160 ∧
     gatingScenario.daily.tokens = 0 ∧ 1 ≤ gatingScenario.hourly.tokens) := by
  refine ⟨?_, ?_, acquire_spacing rl region now hd hh, ?_⟩
  · by_cases hed : now - rl.lastRequestTime < minDelayFor rl region <;>
      simp [RateLimiter.acquire, hed, LimEvent.isDaily, LimEvent.isHourly]
  · by_cases hed : now - rl.lastRequestTime < minDelayFor rl region <;>
      simp [RateLimiter.acquire, hed, LimEvent.isDaily, LimEvent.isHourly]
  · refine ⟨?_, by norm_num [gatingScenario, mkRateLimiter, settings], by norm_num [gatingScenario, mkRateLimiter, settings]⟩
    norm_num [gatingScenario, mkRateLimiter, settings, RateLimiter.acquire, minDelayFor,
      lookupKey, TokenBucket.consume, TokenBucket.refill, min_def]

/-- C4 counterexample: in the scenario exactly as the spec states it (daily
bucket with **1** remaining token, hourly with 5, min-delay satisfied),
`acquire` returns at the invocation time `0`: it does **not** wait for any
daily refill, because one token is still available. -/
theorem acquire_gating_cex :
    gatingScenarioOneToken.daily.tokens = 1 ∧
    gatingScenarioOneToken.hourly.tokens = 5 ∧
    (gatingScenarioOneToken.acquire "Eastern_Europe" 0).retTime = 0 := by
  refine ⟨by norm_num [gatingScenarioOneToken, mkRateLimiter, settings],
    by norm_num [gatingScenarioOneToken, mkRateLimiter, settings], ?_⟩
  norm_num [gatingScenarioOneToken, mkRateLimiter, settings, RateLimiter.acquire, minDelayFor,
    lookupKey, TokenBucket.consume, TokenBucket.refill, min_def]

/-- Witness for `acquire_gating` at the freshly initialised limiter, region
`"Far_East"`, invocation time 50. -/
theorem acquire_gating_witness :
    (0 : ℚ) < (mkRateLimiter 0).daily.refillRate ∧
    (0 : ℚ) < (mkRateLimiter 0).hourly.refillRate ∧
    ((((mkRateLimiter 0).acquire "Far_East" 50).trace.filter LimEvent.isDaily)
        = [LimEvent.consumeDailyEv 1] ∧
     (((mkRateLimiter 0).acquire "Far_East" 50).trace.filter LimEvent.isHourly)
        = [LimEvent.consumeHourlyEv 1] ∧
     (mkRateLimiter 0).lastRequestTime + minDelayFor (mkRateLimiter 0) "Far_East"
        ≤ ((mkRateLimiter 0).acquire "Far_East" 50).retTime ∧
     ((gatingScenario.acquire "Eastern_Europe" 0).retTime = 0 + 2160 ∧
      gatingScenario.daily.tokens = 0 ∧ 1 ≤ gatingScenario.hourly.tokens)) :=
  ⟨by norm_num [mkRateLimiter, settings], by norm_num [mkRateLimiter, settings],
   acquire_gating (mkRateLimiter 0) "Far_East" 50
     (by norm_num [mkRateLimiter, settings]) (by norm_num [mkRateLimiter, settings])⟩

/-- C5: for two consecutive `acquire(region)` calls the second returns no
earlier than the first call's return time plus the region's minimum delay
(hence also no earlier than the first invocation time plus that delay); and
the delay used is the region's entry in the `region_delays` table
(`"Far_East" ↦ 15`), falling back to `settings.linkedin_min_delay_seconds`
(10) for any region absent from the table. -/
theorem acquire_min_delay (rl : RateLimiter) (region : String) (now1 now2 : ℚ)
    (hd : 0 < rl.daily.refillRate) (hh : 0 < rl.hourly.refillRate) :
    (rl.acquire region now1).retTime + minDelayFor rl region ≤
      (((rl.acquire region now1).limiter).acquire region now2).retTime ∧
    now1 + minDelayFor rl region ≤
      (((rl.acquire region now1).limiter).acquire region now2).retTime ∧
    minDelayFor (mkRateLimiter 0) "Far_East" = 15 ∧
    (∀ r : String, lookupKey (mkRateLimiter 0).regionDelays r = none →
      minDelayFor (mkRateLimiter 0) r = 10) := by
  have hd1 : 0 < ((rl.acquire region now1).limiter).daily.refillRate := by
    rw [acquire_daily_rate]; exact hd
  have hh1 : 0 < ((rl.acquire region now1).limiter).hourly.refillRate := by
    rw [acquire_hourly_rate]; exact hh
  have hmd : minDelayFor ((rl.acquire region now1).limiter) region = minDelayFor rl region := by
    unfold minDelayFor
    rw [acquire_regionDelays]
  have h2 := acquire_spacing ((rl.acquire region now1).limiter) region now2 hd1 hh1
  rw [acquire_lastRequestTime, hmd] at h2
  have h1 := acquire_retTime_ge rl region now1 hd hh
  refine ⟨h2, by linarith, ?_, ?_⟩
  · norm_num [minDelayFor, mkRateLimiter, lookupKey]
    rw [if_neg (by decide)]
    rfl
  intro r h
  simp [minDelayFor, h, settings]

/-- Witness for `acquire_min_delay` at the fresh limiter, region
`"Far_East"`, calls at times 100 and 101, and fallback region `"Moon"`. -/
theorem acquire_min_delay_witness :
    (0 : ℚ) < (mkRateLimiter 0).daily.refillRate ∧
    (0 : ℚ) < (mkRateLimiter 0).hourly.refillRate ∧
    ((mkRateLimiter 0).acquire "Far_East" 100).retTime + minDelayFor (mkRateLimiter 0) "Far_East"
      ≤ ((((mkRateLimiter 0).acquire "Far_East" 100).limiter).acquire "Far_East" 101).retTime ∧
    lookupKey (mkRateLimiter 0).regionDelays "Moon" = none ∧
    minDelayFor (mkRateLimiter 0) "Moon" = 10 := by
  have h := acquire_min_delay (mkRateLimiter 0) "Far_East" 100 101
    (by norm_num [mkRateLimiter, settings]) (by norm_num [mkRateLimiter, settings])
  have hmoon : lookupKey (mkRateLimiter 0).regionDelays "Moon" = none := by
    norm_num [mkRateLimiter, lookupKey]
    rw [if_neg (by decide), if_neg (by decide)]
  exact ⟨by norm_num [mkRateLimiter, settings], by norm_num [mkRateLimiter, settings],
    h.1, hmoon, h.2.2.2 "Moon" hmoon⟩

/-! ## Python string primitives shared by hunter_v2.py and hunter_v2_live.py -/

/-- Fuel-driven body of Python `str.replace`: scan left to right, replacing
each non-overlapping occurrence of `pat`.  The fuel only bounds recursion
depth; `pyReplace` supplies `s.length + 1`, which the scan (which always
shortens the remaining input) never exhausts. -/
def pyReplaceGo (pat rep : List Char) : Nat → List Char → List Char
  | 0, s => s
  | _ + 1, [] => []
  | fuel + 1, a :: xs =>
      if pat.isPrefixOf (a :: xs) then
        rep ++ pyReplaceGo pat rep fuel ((a :: xs).drop pat.length)
      else
        a :: pyReplaceGo pat rep fuel xs

/-- Python `s.replace(pat, rep)` for a non-empty `pat` (the only way the
repository calls it). -/
def pyReplace (pat rep s : List Char) : List Char :=
  if pat.isEmpty then s else pyReplaceGo pat rep (s.length + 1) s

/-- `str.replace` on `String`s. -/
def pyReplaceStr (pat rep s : String) : String :=
  String.mk (pyReplace pat.data rep.data s.data)

/-! ## Hunter Agent v2 (src/src/agents/hunter_v2.py) -/

/-- One entry of `OSINT_PROTOCOLS`. -/
structure Protocol where
  name : String
  query_template : String
  description : String
deriving DecidableEq, Repr

/-- A value of `APPROVED_COUNTRIES`: `code` and `name`. -/
structure Country where
  code : String
  name : String
deriving DecidableEq, Repr

/-- The `OSINT_PROTOCOLS` dict, in insertion order. -/
def OSINT_PROTOCOLS : List (String × Protocol) :=
  [("portfolio_match",
    ⟨"Portfolio Match (Hidden Web)",
     "filetype:pdf \"wine portfolio\" (\"Israel\" OR \"Kosher\") site:.\x7bcountry_code\x7d",
     "Finds importers with PDF catalogs showing Israeli/Kosher wine expertise"⟩),
   ("direct_executive",
    ⟨"Direct Executive (Decision Maker)",
     "site:linkedin.com/in/ (\"Wine Importer\" OR \"Distributor\" OR \"CEO\") (\"\x7bcountry_name\x7d\") -intitle:jobs",
     "Finds wine industry executives in target country"⟩),
   ("official_entity",
    ⟨"Official Entity (Vivino Related)",
     "related:vivino.com \"wine importer\" \"\x7bcountry_name\x7d\"",
     "Finds major wine distributors recognized by Vivino"⟩),
   ("competitor_piggyback",
    ⟨"Competitor Piggyback",
     "\"imported by\" (\"Yarden\" OR \"Golan Heights\" OR \"Recanati\" OR \"Teperberg\") site:.\x7bcountry_code\x7d",
     "Finds existing Israeli wine importers"⟩)]

/-- The `APPROVED_COUNTRIES` dict, in insertion order. -/
def APPROVED_COUNTRIES : List (String × Country) :=
  [("Poland", ⟨"pl", "Poland"⟩),
   ("Romania", ⟨"ro", "Romania"⟩),
   ("Czech Republic", ⟨"cz", "Czech Republic"⟩),
   ("Japan", ⟨"jp", "Japan"⟩),
   ("South Korea", ⟨"kr", "South Korea"⟩)]

/-- `query_template.format(country_code=..., country_name=...)`: substitute
the two placeholders.  Each template contains no other brace field, and
country codes/names contain no braces, so sequential replacement of the two
placeholder strings is exact. -/
def formatQuery (tmpl : String) (c : Country) : String :=
  pyReplaceStr "\x7bcountry_name\x7d" c.name
    (pyReplaceStr "\x7bcountry_code\x7d" c.code tmpl)

/-- The injected search function (`self.search`): a query either yields raw
result text or raises (modelled as `Except.error` with the exception
message). -/
def SearchFn : Type := String → Except String String

/-- The dict `execute_protocol` returns for one pair: on success the keys
`protocol`, `country`, `query`, `raw_result`; on a raised search exception
the keys `protocol`, `country`, `query`, `error`.  Absent keys are `none`. -/
structure SearchResult where
  protocol : String
  country : String
  query : String
  raw_result : Option String
  error : Option String
deriving DecidableEq, Repr

/-- Observable actions of the sweep: a call to the injected search function,
an `asyncio.sleep`, or a call to `linkedin_rate_limiter.acquire` (the module
imports the limiter; the trace records any acquire the code would make). -/
inductive SweepEvent where
  | searchEv (q : String)
  | sleepEv (d : ℚ)
  | acquireEv (region : String)
deriving DecidableEq, Repr

/-- Recognizer for limiter-acquire events. -/
def SweepEvent.isAcquire : SweepEvent → Bool
  | .acquireEv _ => true
  | _ => false

/-- The body of `execute_protocol` after the successful registry lookup:
build the query from the template, call the search function, and wrap the
outcome — exceptions are caught and recorded under `error`. -/
def execResultCore (pr : Protocol) (f : SearchFn) (pname : String) (c : Country) : SearchResult :=
  let query := formatQuery pr.query_template c
  match f query with
  | .ok r => ⟨pname, c.name, query, some r, none⟩
  | .error e => ⟨pname, c.name, query, none, some e⟩

/-- `execute_protocol(protocol_name, country)`: `OSINT_PROTOCOLS[protocol_name]`
raises `KeyError` for an unknown key (modelled as `none`, with no search
performed); otherwise the search runs and its outcome is wrapped. -/
def execute_protocol (registry : List (String × Protocol)) (f : SearchFn)
    (pname : String) (c : Country) : Option SearchResult × List SweepEvent :=
  match lookupKey registry pname with
  | none => (none, [])
  | some pr =>
      (some (execResultCore pr f pname c),
       [SweepEvent.searchEv (formatQuery pr.query_template c)])

/-- Inner loop of `search_all_countries`: for each protocol key, run
`execute_protocol` and then `asyncio.sleep(2)`.  A `KeyError` (impossible
when iterating the registry's own keys) would abort the sweep. -/
def sweepProtocols (registry : List (String × Protocol)) (f : SearchFn) (c : Country) :
    List (String × Protocol) → Option (List SearchResult) × List SweepEvent
  | [] => (some [], [])
  | (pname, _) :: rest =>
      match execute_protocol registry f pname c with
      | (none, ev) => (none, ev)
      | (some r, ev) =>
          let tail := sweepProtocols registry f c rest
          (tail.1.map (fun l => r :: l), ev ++ [SweepEvent.sleepEv 2] ++ tail.2)

/-- Outer loop of `search_all_countries`: countries in insertion order, all
protocols (the registry's own keys) for each. -/
def sweepCountries (registry : List (String × Protocol)) (f : SearchFn) :
    List (String × Country) → Option (List SearchResult) × List SweepEvent
  | [] => (some [], [])
  | (_, ci) :: rest =>
      match sweepProtocols registry f ci registry with
      | (none, ev) => (none, ev)
      | (some rs, ev) =>
          let tail := sweepCountries registry f rest
          (tail.1.map (fun l => rs ++ l), ev ++ tail.2)

/-- `search_all_countries()`, generalised over the protocol registry, the
country table and the injected search function (the code uses the module
constants and `self.search`). -/
def search_all_countries (registry : List (String × Protocol))
    (countries : List (String × Country)) (f : SearchFn) :
    Option (List SearchResult) × List SweepEvent :=
  sweepCountries registry f countries

/-- A key occurring in an association list is always found. -/
theorem lookupKey_isSome_of_mem {α : Type} (l : List (String × α)) (k : String)
    (h : k ∈ l.map Prod.fst) : (lookupKey l k).isSome = true := by
  induction l with
  | nil => simp at h
  | cons p rest ih =>
    obtain ⟨k1, v⟩ := p
    by_cases hk : k = k1
    · simp [lookupKey, hk]
    · simp only [List.map_cons, List.mem_cons] at h
      have hmem : k ∈ rest.map Prod.fst := h.resolve_left hk
      simp [lookupKey, hk]
      exact ih hmem

/-- The result `execute_protocol` produces for a pair whose key is present in
the registry (for an absent key `execute_protocol` instead raises;
the placeholder branch below is never reached for registry keys). -/
def execResult (registry : List (String × Protocol)) (f : SearchFn)
    (pname : String) (c : Country) : SearchResult :=
  match lookupKey registry pname with
  | none => ⟨pname, c.name, "", none, none⟩
  | some pr => execResultCore pr f pname c

theorem execResultCore_query (pr : Protocol) (f : SearchFn) (pname : String) (c : Country) :
    (execResultCore pr f pname c).query = formatQuery pr.query_template c := by
  cases h : f (formatQuery pr.query_template c) <;> simp [execResultCore, h]

theorem execResult_protocol (registry : List (String × Protocol)) (f : SearchFn)
    (pname : String) (c : Country) : (execResult registry f pname c).protocol = pname := by
  unfold execResult
  cases lookupKey registry pname with
  | none => rfl
  | some pr =>
    cases h : f (formatQuery pr.query_template c) <;> simp [execResultCore, h]

theorem execResult_country (registry : List (String × Protocol)) (f : SearchFn)
    (pname : String) (c : Country) : (execResult registry f pname c).country = c.name := by
  unfold execResult
  cases lookupKey registry pname with
  | none => rfl
  | some pr =>
    cases h : f (formatQuery pr.query_template c) <;> simp [execResultCore, h]

/-- Evaluation of the inner protocol loop when every iterated key is found in
the registry. -/
theorem sweepProtocols_eq (registry : List (String × Protocol)) (f : SearchFn) (c : Country) :
    ∀ iter : List (String × Protocol),
      (∀ p ∈ iter, (lookupKey registry p.1).isSome = true) →
      sweepProtocols registry f c iter =
        (some (iter.map (fun p => execResult registry f p.1 c)),
         iter.flatMap (fun p =>
           [SweepEvent.searchEv ((execResult registry f p.1 c).query),
            SweepEvent.sleepEv 2])) := by
  intro iter
  induction iter with
  | nil => intro _; rfl
  | cons p rest ih =>
    intro h
    obtain ⟨pname, pv⟩ := p
    have hp := h (pname, pv) (List.mem_cons_self _ rest)
    obtain ⟨pr, hpr⟩ := Option.isSome_iff_exists.mp hp
    have hrest : ∀ q ∈ rest, (lookupKey registry q.1).isSome = true :=
      fun q hq => h q (List.mem_cons_of_mem _ hq)
    simp only [sweepProtocols, execute_protocol, hpr, ih hrest, execResult,
      execResultCore_query, List.map_cons, List.flatMap_cons]
    simp [execResultCore_query]

/-- Evaluation of the whole sweep: it always completes, producing one result
per (country, protocol) pair in entities-outer/protocols-inner order, and a
trace of one search followed by one 2-second sleep per pair. -/
theorem sweep_eq (registry : List (String × Protocol))
    (countries : List (String × Country)) (f : SearchFn) :
    search_all_countries registry countries f =
      (some (countries.flatMap (fun c => registry.map (fun p => execResult registry f p.1 c.2))),
       countries.flatMap (fun c => registry.flatMap (fun p =>
         [SweepEvent.searchEv ((execResult registry f p.1 c.2).query),
          SweepEvent.sleepEv 2]))) := by
  induction countries with
  | nil => rfl
  | cons c rest ih =>
    obtain ⟨cname, ci⟩ := c
    have hall : ∀ p ∈ registry, (lookupKey registry p.1).isSome = true :=
      fun p hp => lookupKey_isSome_of_mem registry p.1 (List.mem_map_of_mem Prod.fst hp)
    simp only [search_all_countries] at ih ⊢
    simp only [sweepCountries, sweepProtocols_eq registry f ci registry hall, ih,
      List.flatMap_cons, Option.map_some]
    simp

/-- The sweep trace never contains a limiter-acquire event. -/
theorem sweep_no_acquire (registry : List (String × Protocol))
    (countries : List (String × Country)) (f : SearchFn) :
    ((search_all_countries registry countries f).2.countP SweepEvent.isAcquire) = 0 := by
  rw [sweep_eq]
  rw [List.countP_eq_zero]
  intro e he
  simp only [List.mem_flatMap, List.mem_cons, List.mem_singleton] at he
  obtain ⟨c, _, p, _, hmem⟩ := he
  rcases hmem with rfl | rfl | h
  · simp [SweepEvent.isAcquire]
  · simp [SweepEvent.isAcquire]
  · simp at h

/-- A search function that always succeeds (used for concrete instantiations). -/
def okSearch : SearchFn := fun q => Except.ok (String.append "results for " q)

/-- C1 (amended): the sweep never calls the shared rate limiter's `acquire`.
For each (entity, protocol) pair it performs exactly one injected-search call
(on the query built for the pair) followed by a fixed `asyncio.sleep(2)`; the
trace contains zero `acquire` events. -/
theorem sweep_trace_spec (registry : List (String × Protocol))
    (countries : List (String × Country)) (f : SearchFn) :
    (search_all_countries registry countries f).2 =
      countries.flatMap (fun c => registry.flatMap (fun p =>
        [SweepEvent.searchEv ((execResult registry f p.1 c.2).query),
         SweepEvent.sleepEv 2])) ∧
    ((search_all_countries registry countries f).2.countP SweepEvent.isAcquire) = 0 := by
  refine ⟨?_, sweep_no_acquire registry countries f⟩
  rw [sweep_eq]

/-- C1 counterexample: running the sweep over the repository's actual
protocol and country tables processes 5 × 4 = 20 pairs but performs 0
limiter-acquire calls — not one per pair as claimed. -/
theorem sweep_trace_cex :
    ((search_all_countries OSINT_PROTOCOLS APPROVED_COUNTRIES okSearch).2.countP
        SweepEvent.isAcquire) = 0 ∧
    APPROVED_COUNTRIES.length * OSINT_PROTOCOLS.length = 20 ∧ (0 : ℕ) ≠ 20 :=
  ⟨sweep_no_acquire _ _ _, by decide, by decide⟩

/-- C6: the sweep over E entities and P protocols yields exactly `E * P`
results, in entities-outer/protocols-inner order (grouped by entity), and —
given distinct country names and distinct protocol keys — each
(entity, protocol) pair occurs exactly once, for every search function
(hence regardless of how many searches fail). -/
theorem sweep_completeness (registry : List (String × Protocol))
    (countries : List (String × Country)) (f : SearchFn)
    (hk : (registry.map Prod.fst).Nodup)
    (hc : (countries.map (fun c => c.2.name)).Nodup) :
    ∃ rs, (search_all_countries registry countries f).1 = some rs ∧
      rs.length = countries.length * registry.length ∧
      rs.map (fun r => (r.country, r.protocol)) =
        countries.flatMap (fun c => registry.map (fun p => (c.2.name, p.1))) ∧
      (rs.map (fun r => (r.country, r.protocol))).Nodup := by
  refine ⟨countries.flatMap (fun c => registry.map (fun p => execResult registry f p.1 c.2)),
    ?_, ?_, ?_, ?_⟩
  · rw [sweep_eq]
  · rw [List.length_flatMap]
    have hlen : List.map
        (List.length ∘ fun c : String × Country =>
          List.map (fun p => execResult registry f p.1 c.2) registry) countries
        = countries.map (fun _ => registry.length) := by
      refine List.map_congr_left ?_
      intro c _
      simp
    rw [hlen, List.map_const', List.sum_replicate, smul_eq_mul, mul_comm]
  · rw [List.map_flatMap]
    refine List.flatMap_congr ?_
    intro c _
    rw [List.map_map]
    refine List.map_congr_left ?_
    intro p _
    simp [Function.comp, execResult_protocol, execResult_country]
  · rw [List.map_flatMap, List.nodup_flatMap]
    constructor
    · intro c _
      have hmapeq : (registry.map (fun p => execResult registry f p.1 c.2)).map
            (fun r => (r.country, r.protocol))
          = (registry.map Prod.fst).map (fun k => (c.2.name, k)) := by
        rw [List.map_map, List.map_map]
        refine List.map_congr_left ?_
        intro p _
        simp [Function.comp, execResult_protocol, execResult_country]
      rw [hmapeq]
      exact hk.map (fun a b hab => congrArg Prod.snd hab)
    · have hpair : countries.Pairwise (fun a b => a.2.name ≠ b.2.name) :=
        List.pairwise_map.mp hc
      refine hpair.imp ?_
      intro a b hab
      simp only [Function.onFun]
      intro x hxa hxb
      simp only [List.mem_map] at hxa hxb
      obtain ⟨pa, ⟨p1, _, hp1⟩, hpa⟩ := hxa
      obtain ⟨pb, ⟨p2, _, hp2⟩, hpb⟩ := hxb
      apply hab
      have h1 : x.1 = a.2.name := by
        rw [← hpa, ← hp1]
        simp [execResult_country]
      have h2 : x.1 = b.2.name := by
        rw [← hpb, ← hp2]
        simp [execResult_country]
      rw [← h1, ← h2]

/-- Witness for `sweep_completeness` on the repository's actual tables with
an always-succeeding search function. -/
theorem sweep_completeness_witness :
    (OSINT_PROTOCOLS.map Prod.fst).Nodup ∧
    (APPROVED_COUNTRIES.map (fun c => c.2.name)).Nodup ∧
    (∃ rs, (search_all_countries OSINT_PROTOCOLS APPROVED_COUNTRIES okSearch).1 = some rs ∧
      rs.length = APPROVED_COUNTRIES.length * OSINT_PROTOCOLS.length ∧
      rs.map (fun r => (r.country, r.protocol)) =
        APPROVED_COUNTRIES.flatMap (fun c => OSINT_PROTOCOLS.map (fun p => (c.2.name, p.1))) ∧
      (rs.map (fun r => (r.country, r.protocol))).Nodup) :=
  ⟨by decide, by decide,
   sweep_completeness OSINT_PROTOCOLS APPROVED_COUNTRIES okSearch (by decide) (by decide)⟩

/-- C7: if the search function `g` behaves like `f` except that it raises
(message `msg`) exactly on query `q0`, the sweep under `g` still completes
and equals the sweep under `f` with only the `q0`-pairs changed — each such
pair keeps its protocol, country and query and records the exception message
under `error`; every other pair's result is unaffected. -/
theorem sweep_fault_isolation (registry : List (String × Protocol))
    (countries : List (String × Country)) (f g : SearchFn) (q0 msg : String)
    (hg0 : g q0 = Except.error msg) (hagree : ∀ q, q ≠ q0 → g q = f q) :
    (search_all_countries registry countries g).1 =
      Option.map (List.map (fun r => if r.query = q0 then
        SearchResult.mk r.protocol r.country r.query none (some msg) else r))
        (search_all_countries registry countries f).1 ∧
    ((search_all_countries registry countries f).1).isSome = true := by
  rw [sweep_eq registry countries f, sweep_eq registry countries g]
  refine ⟨?_, rfl⟩
  simp only [Option.map_some]
  congr 1
  rw [List.map_flatMap]
  refine List.flatMap_congr ?_
  intro c _
  rw [List.map_map]
  refine List.map_congr_left ?_
  intro p hp
  have hps := lookupKey_isSome_of_mem registry p.1 (List.mem_map_of_mem Prod.fst hp)
  obtain ⟨pr, hpr⟩ := Option.isSome_iff_exists.mp hps
  simp only [Function.comp, execResult, hpr]
  by_cases hq : formatQuery pr.query_template c.2 = q0
  · cases hf : f (formatQuery pr.query_template c.2) <;>
      · rw [hq] at hf
        simp [execResultCore, hf, hq, hg0]
  · have hgf := hagree _ hq
    cases hf : f (formatQuery pr.query_template c.2) <;>
      simp [execResultCore, hf, hgf, hq]

/-- The query the sweep builds for ("Japan", "portfolio_match"). -/
def japanPortfolioQuery : String :=
  (execResult OSINT_PROTOCOLS okSearch "portfolio_match" (Country.mk "jp" "Japan")).query

/-- A search function raising exactly for the Japan/portfolio_match query. -/
def failSearch : SearchFn := fun q =>
  if q = japanPortfolioQuery then Except.error "search raised" else okSearch q

/-- Witness for `sweep_fault_isolation`: the real tables, with the search
failing exactly for entity "Japan", protocol "portfolio_match". -/
theorem sweep_fault_isolation_witness :
    failSearch japanPortfolioQuery = Except.error "search raised" ∧
    ((search_all_countries OSINT_PROTOCOLS APPROVED_COUNTRIES failSearch).1 =
      Option.map (List.map (fun r => if r.query = japanPortfolioQuery then
        SearchResult.mk r.protocol r.country r.query none (some "search raised") else r))
        (search_all_countries OSINT_PROTOCOLS APPROVED_COUNTRIES okSearch).1 ∧
     ((search_all_countries OSINT_PROTOCOLS APPROVED_COUNTRIES okSearch).1).isSome = true) :=
  ⟨by simp [failSearch],
   sweep_fault_isolation OSINT_PROTOCOLS APPROVED_COUNTRIES okSearch failSearch
     japanPortfolioQuery "search raised" (by simp [failSearch])
     (fun q hq => by simp [failSearch, hq])⟩

/-- C9: `execute_protocol` on an unknown protocol key fails with the
`KeyError`/`ConfigError` (no result, and no search call in the trace), while
for any registered key it succeeds with the country code/name placeholders
substituted into that protocol's template and the pair identity preserved. -/
theorem execute_protocol_spec (registry : List (String × Protocol)) (f : SearchFn)
    (pname : String) (c : Country) :
    (lookupKey registry pname = none →
      execute_protocol registry f pname c = (none, [])) ∧
    (∀ pr, lookupKey registry pname = some pr →
      (execute_protocol registry f pname c).1 = some (execResultCore pr f pname c) ∧
      (execResultCore pr f pname c).protocol = pname ∧
      (execResultCore pr f pname c).country = c.name ∧
      (execResultCore pr f pname c).query = formatQuery pr.query_template c) := by
  constructor
  · intro h
    simp [execute_protocol, h]
  · intro pr h
    refine ⟨by simp [execute_protocol, h], ?_, ?_, execResultCore_query pr f pname c⟩
    · cases hf : f (formatQuery pr.query_template c) <;> simp [execResultCore, hf]
    · cases hf : f (formatQuery pr.query_template c) <;> simp [execResultCore, hf]

/-- The `official_entity` entry of `OSINT_PROTOCOLS`. -/
def officialEntityProtocol : Protocol :=
  ⟨"Official Entity (Vivino Related)",
   "related:vivino.com \"wine importer\" \"\x7bcountry_name\x7d\"",
   "Finds major wine distributors recognized by Vivino"⟩

/-- Witness for `execute_protocol_spec`: an unknown key fails; the known key
`"official_entity"` succeeds at Poland with placeholders substituted. -/
theorem execute_protocol_spec_witness :
    lookupKey OSINT_PROTOCOLS "no_such_protocol" = none ∧
    execute_protocol OSINT_PROTOCOLS okSearch "no_such_protocol" (Country.mk "pl" "Poland")
      = (none, []) ∧
    lookupKey OSINT_PROTOCOLS "official_entity" = some officialEntityProtocol ∧
    ((execute_protocol OSINT_PROTOCOLS okSearch "official_entity" (Country.mk "pl" "Poland")).1
        = some (execResultCore officialEntityProtocol okSearch "official_entity"
            (Country.mk "pl" "Poland")) ∧
     (execResultCore officialEntityProtocol okSearch "official_entity"
        (Country.mk "pl" "Poland")).protocol = "official_entity" ∧
     (execResultCore officialEntityProtocol okSearch "official_entity"
        (Country.mk "pl" "Poland")).country = "Poland" ∧
     (execResultCore officialEntityProtocol okSearch "official_entity"
        (Country.mk "pl" "Poland")).query
        = formatQuery officialEntityProtocol.query_template (Country.mk "pl" "Poland")) := by
  have h1 : lookupKey OSINT_PROTOCOLS "no_such_protocol" = none := by decide
  have h2 : lookupKey OSINT_PROTOCOLS "official_entity" = some officialEntityProtocol := by decide
  exact ⟨h1,
    (execute_protocol_spec OSINT_PROTOCOLS okSearch "no_such_protocol" (Country.mk "pl" "Poland")).1 h1,
    h2,
    (execute_protocol_spec OSINT_PROTOCOLS okSearch "official_entity" (Country.mk "pl" "Poland")).2
      officialEntityProtocol h2⟩

/-- The Gemini extraction prompt built for one search result (`parse_results_to_leads`). -/
def leadPrompt (result : SearchResult) : String :=
  "Extract lead information from this search result. Protocol: " ++ result.protocol ++
  " Country: " ++ result.country ++ " Search Result: " ++ result.raw_result.getD "" ++
  " Extract: 1. Company name 2. Website URL (must exist) 3. Decision maker name and title" ++
  " (if available) 4. Relevance score/reason (why this is a good lead)" ++
  " Return as JSON with keys: company_name, website, decision_maker_name," ++
  " decision_maker_title, relevance_score"

/-- Loop body of `parse_results_to_leads`: skip results carrying an `error`
key; otherwise call Gemini on the prompt — the extracted text is only
logged (the `TODO` parse step is absent), and an extraction exception is
swallowed with `continue`.  No branch appends to `leads_created`. -/
def leadStep (gemini : String → Except String String) (leads_created : List String)
    (result : SearchResult) : List String :=
  if result.error.isSome then leads_created
  else
    match gemini (leadPrompt result) with
    | .ok _ => leads_created
    | .error _ => leads_created

/-- `parse_results_to_leads(search_results, campaign_id)`, with the Gemini
call injected as a function.  Returns the accumulated list of created lead
ids. -/
def parse_results_to_leads (search_results : List SearchResult)
    (campaign_id : String) (gemini : String → Except String String) : List String :=
  search_results.foldl (leadStep gemini) []

/-- C10: `parse_results_to_leads` returns the empty list for every input —
no lead id is ever appended, whatever the results, the campaign id and the
Gemini outcomes. -/
theorem parse_results_to_leads_empty (search_results : List SearchResult)
    (campaign_id : String) (gemini : String → Except String String) :
    parse_results_to_leads search_results campaign_id gemini = [] := by
  have key : ∀ (rs : List SearchResult) (acc : List String),
      rs.foldl (leadStep gemini) acc = acc := by
    intro rs
    induction rs with
    | nil => intro acc; rfl
    | cons r rest ih =>
      intro acc
      have hstep : leadStep gemini acc r = acc := by
        unfold leadStep
        by_cases h : r.error.isSome
        · simp [h]
        · cases hg : gemini (leadPrompt r) <;> simp [h, hg]
      simp only [List.foldl_cons, hstep, ih]
  exact key search_results []

/-! ## Live extraction script (src/scripts/hunter_v2_live.py) -/

/-- Characters admitted by the URL regex body: everything except ASCII
whitespace and the characters excluded by the pattern's negated class
(angle brackets, double quote, braces, pipe, backslash, caret, backtick,
square brackets).  Written with `Char.ofNat` codes 34 = double quote,
92 = backslash, 96 = backtick, 123/125 = braces, 91/93 = brackets. -/
def urlChar (c : Char) : Bool :=
  !(c == ' ' || c == '\t' || c == '\n' || c == '\r' ||
    c == Char.ofNat 11 || c == Char.ofNat 12 ||
    c == '<' || c == '>' || c == Char.ofNat 34 ||
    c == Char.ofNat 123 || c == Char.ofNat 125 ||
    c == '|' || c == Char.ofNat 92 || c == '^' ||
    c == Char.ofNat 96 || c == Char.ofNat 91 || c == Char.ofNat 93)

/-- The characters of `"https://"`. -/
def httpsPrefix : List Char := ['h', 't', 't', 'p', 's', ':', '/', '/']

/-- The characters of `"http://"`. -/
def httpPrefix : List Char := ['h', 't', 't', 'p', ':', '/', '/']

/-- Match `https?://` at the head of the input (the optional `s` is matched
greedily, as the regex engine does), returning the matched scheme and the
remaining input. -/
def matchScheme (s : List Char) : Option (List Char × List Char) :=
  if httpsPrefix.isPrefixOf s then some (httpsPrefix, s.drop 8)
  else if httpPrefix.isPrefixOf s then some (httpPrefix, s.drop 7)
  else none

/-- Longest run of URL-body characters at the head of the input, with the
rest (the greedy `[...]+` of the pattern). -/
def takeUrlRun : List Char → List Char × List Char
  | [] => ([], [])
  | c :: cs =>
      if urlChar c then
        let pr := takeUrlRun cs
        (c :: pr.1, pr.2)
      else ([], c :: cs)

/-- Fuel-driven scan of `re.findall(r'https?://[^\s<>"{}|\\^`\[\]]+', text)`:
at each position try to match the scheme followed by a non-empty run of URL
characters; on success emit the match and continue after it, otherwise
advance one character.  The fuel only bounds the recursion; every step
shortens the input, so the `s.length + 1` supplied by `findUrls` is never
exhausted. -/
def findUrlsGo : Nat → List Char → List (List Char)
  | 0, _ => []
  | _ + 1, [] => []
  | fuel + 1, c :: cs =>
      match matchScheme (c :: cs) with
      | some (sch, rest) =>
          let pr := takeUrlRun rest
          if pr.1.isEmpty then findUrlsGo fuel cs
          else (sch ++ pr.1) :: findUrlsGo fuel pr.2
      | none => findUrlsGo fuel cs

/-- All URL matches in a character list. -/
def findUrls (s : List Char) : List (List Char) := findUrlsGo (s.length + 1) s

/-- `extract_urls_from_text(text)`. -/
def extract_urls_from_text (text : String) : List String :=
  (findUrls text.data).map String.mk

/-- Python `s.split(sep)` for a single-character separator: always returns a
non-empty list of (possibly empty) fields. -/
def pySplitChar (sep : Char) : List Char → List (List Char)
  | [] => [[]]
  | a :: xs =>
      if a = sep then [] :: pySplitChar sep xs
      else
        match pySplitChar sep xs with
        | [] => [[a]]
        | y :: ys => (a :: y) :: ys

/-- Body of Python `str.title()`: a letter following a non-letter is
uppercased, a letter following a letter is lowercased, other characters pass
through and reset the word state. -/
def titleAux : Bool → List Char → List Char
  | _, [] => []
  | prevCased, c :: cs =>
      if c.isAlpha then
        (if prevCased then c.toLower else c.toUpper) :: titleAux true cs
      else c :: titleAux false cs

/-- Python `s.title()`. -/
def pyTitle (s : List Char) : List Char := titleAux false s

/-- The dict `extract_company_info` builds. -/
structure CompanyInfo where
  country : String
  company_name : String
  website : String
  decision_maker : String
  relevance_score : String
  raw_snippet : String
deriving DecidableEq, Repr

/-- `extract_company_info(text, country)`: base fields with the snippet
truncated to `text[:300]`; if any URL was found, `website` is the first URL
and `company_name` is `urls[0].split('/')[2].replace('www.', '').split('.')[0].title()`.
The two indexing operations are modelled as `Option.get?`; `none` models the
`IndexError` the corresponding Python subscript would raise. -/
def extract_company_info (text : String) (country : String) : Option CompanyInfo :=
  let base : CompanyInfo :=
    ⟨country, "Unknown", "", "", "", String.mk (text.data.take 300)⟩
  match extract_urls_from_text text with
  | [] => some base
  | u :: _ =>
      match (pySplitChar '/' u.data).get? 2 with
      | none => none
      | some host =>
          match (pySplitChar '.' (pyReplace "www.".data "".data host)).get? 0 with
          | none => none
          | some label =>
              some { base with
                     website := u,
                     company_name := String.mk (pyTitle label) }

/-- `split` always yields at least one field. -/
theorem pySplitChar_exists_cons (sep : Char) (s : List Char) :
    ∃ y ys, pySplitChar sep s = y :: ys := by
  induction s with
  | nil => exact ⟨[], [], rfl⟩
  | cons a xs ih =>
    obtain ⟨y, ys, hys⟩ := ih
    by_cases ha : a = sep
    · exact ⟨[], pySplitChar sep xs, by simp [pySplitChar, ha]⟩
    · exact ⟨a :: y, ys, by simp [pySplitChar, ha, hys]⟩

/-- Splitting a list that starts with a separator-free block followed by two
separators. -/
theorem pySplitChar_append_sep (sep : Char) (l t : List Char)
    (hl : ∀ c ∈ l, ¬ c = sep) :
    pySplitChar sep (l ++ sep :: sep :: t) = l :: [] :: pySplitChar sep t := by
  induction l with
  | nil => simp [pySplitChar]
  | cons a l ih =>
    have ha : ¬ a = sep := hl a (List.mem_cons_self a l)
    have ih' := ih (fun c hc => hl c (List.mem_cons_of_mem a hc))
    simp only [List.cons_append, pySplitChar, if_neg ha]
    have ih2 : pySplitChar sep (l.append (sep :: sep :: t))
        = l :: [] :: pySplitChar sep t := ih'
    rw [ih2]

/-- Any scheme returned by `matchScheme` is one of the two prefixes. -/
theorem matchScheme_sch (s : List Char) (p : List Char × List Char)
    (h : matchScheme s = some p) : p.1 = httpsPrefix ∨ p.1 = httpPrefix := by
  unfold matchScheme at h
  by_cases h8 : httpsPrefix.isPrefixOf s
  · rw [if_pos h8] at h
    cases h
    exact Or.inl rfl
  · rw [if_neg h8] at h
    by_cases h7 : httpPrefix.isPrefixOf s
    · rw [if_pos h7] at h
      cases h
      exact Or.inr rfl
    · rw [if_neg h7] at h
      cases h

/-- Every match produced by the URL scan starts with `http://` or `https://`. -/
theorem findUrlsGo_shape : ∀ (fuel : Nat) (s u : List Char),
    u ∈ findUrlsGo fuel s →
    (∃ t, u = httpsPrefix ++ t) ∨ (∃ t, u = httpPrefix ++ t) := by
  intro fuel
  induction fuel with
  | zero => intro s u h; simp [findUrlsGo] at h
  | succ n ih =>
    intro s u h
    cases s with
    | nil => simp [findUrlsGo] at h
    | cons c cs =>
      rw [findUrlsGo] at h
      cases hm : matchScheme (c :: cs) with
      | none =>
        rw [hm] at h
        exact ih cs u h
      | some p =>
        obtain ⟨sch, rest⟩ := p
        rw [hm] at h
        dsimp only at h
        by_cases he : (takeUrlRun rest).1.isEmpty
        · rw [if_pos he] at h
          exact ih cs u h
        · rw [if_neg he] at h
          rcases List.mem_cons.mp h with rfl | h'
          · rcases matchScheme_sch _ _ hm with hs | hs <;> simp only at hs
            · exact Or.inl ⟨(takeUrlRun rest).1, by rw [hs]⟩
            · exact Or.inr ⟨(takeUrlRun rest).1, by rw [hs]⟩
          · exact ih _ u h'

/-- `url.split('/')[2]` exists for every scanned URL. -/
theorem split_get2_isSome (u : List Char)
    (h : (∃ t, u = httpsPrefix ++ t) ∨ (∃ t, u = httpPrefix ++ t)) :
    ((pySplitChar '/' u).get? 2).isSome = true := by
  rcases h with ⟨t, rfl⟩ | ⟨t, rfl⟩
  · have hsp : httpsPrefix ++ t
        = ['h', 't', 't', 'p', 's', ':'] ++ '/' :: '/' :: t := rfl
    rw [hsp, pySplitChar_append_sep '/' _ t (by decide)]
    obtain ⟨y, ys, hys⟩ := pySplitChar_exists_cons '/' t
    rw [hys]
    rfl
  · have hsp : httpPrefix ++ t
        = ['h', 't', 't', 'p', ':'] ++ '/' :: '/' :: t := rfl
    rw [hsp, pySplitChar_append_sep '/' _ t (by decide)]
    obtain ⟨y, ys, hys⟩ := pySplitChar_exists_cons '/' t
    rw [hys]
    rfl

/-- The extractor is total: it never raises, for any input text. -/
theorem extract_company_info_isSome (text country : String) :
    (extract_company_info text country).isSome = true := by
  unfold extract_company_info
  cases hu : extract_urls_from_text text with
  | nil => simp
  | cons u us =>
    have hmem : u ∈ extract_urls_from_text text := by
      rw [hu]; exact List.mem_cons_self u us
    unfold extract_urls_from_text at hmem
    obtain ⟨l, hl, hlu⟩ := List.mem_map.mp hmem
    have hdata : u.data = l := by rw [← hlu]
    have hshape := findUrlsGo_shape _ _ l hl
    have h2 := split_get2_isSome u.data (by rw [hdata]; exact hshape)
    obtain ⟨host, hhost⟩ := Option.isSome_iff_exists.mp h2
    obtain ⟨y, ys, hys⟩ :=
      pySplitChar_exists_cons '.' (pyReplace "www.".data "".data host)
    have hys0 : (pySplitChar '.' (pyReplace "www.".data "".data host))[0]? = some y := by
      rw [hys]
      simp
    simp only [List.get?_eq_getElem?] at hhost
    simp at hys0
    simp [hhost, hys0]

/-- C8: the extractor never raises for any input text; on `"no urls here"`
it degrades to `company_name = "Unknown"`, `website = ""`; on the example
text it returns the first URL as `website` and `"Examplewine"` as
`company_name` (host label of the URL, `www.`-stripped, segment before the
first dot, title-cased); and the stored snippet is always `text[:300]`. -/
theorem extract_graceful :
    (∀ text country : String, (extract_company_info text country).isSome = true) ∧
    extract_company_info "no urls here" "Poland" =
      some ⟨"Poland", "Unknown", "", "", "", "no urls here"⟩ ∧
    extract_company_info "see https://examplewine.co.uk/catalog for info" "Poland" =
      some ⟨"Poland", "Examplewine", "https://examplewine.co.uk/catalog", "", "",
        "see https://examplewine.co.uk/catalog for info"⟩ ∧
    (∀ (text country : String) (info : CompanyInfo),
      extract_company_info text country = some info →
      info.raw_snippet = String.mk (text.data.take 300)) := by
  refine ⟨extract_company_info_isSome, by decide, by decide, ?_⟩
  intro text country info h
  unfold extract_company_info at h
  cases hu : extract_urls_from_text text with
  | nil =>
    rw [hu] at h
    dsimp only at h
    cases h
    rfl
  | cons u us =>
    rw [hu] at h
    dsimp only at h
    cases h2 : (pySplitChar '/' u.data).get? 2 with
    | none =>
      rw [h2] at h
      exact Option.noConfusion h
    | some host =>
      rw [h2] at h
      dsimp only at h
      cases h3 : (pySplitChar '.' (pyReplace "www.".data "".data host)).get? 0 with
      | none =>
        rw [h3] at h
        exact Option.noConfusion h
      | some label =>
        rw [h3] at h
        dsimp only at h
        cases h
        rfl

/-- Witness for `extract_graceful`: the snippet-truncation clause applied at
the spec's own URL example. -/
theorem extract_graceful_witness :
    (extract_company_info "see https://examplewine.co.uk/catalog for info" "Poland").isSome
      = true ∧
    extract_company_info "see https://examplewine.co.uk/catalog for info" "Poland" =
      some ⟨"Poland", "Examplewine", "https://examplewine.co.uk/catalog", "", "",
        "see https://examplewine.co.uk/catalog for info"⟩ ∧
    (CompanyInfo.mk "Poland" "Examplewine" "https://examplewine.co.uk/catalog" "" ""
        "see https://examplewine.co.uk/catalog for info").raw_snippet =
      String.mk (("see https://examplewine.co.uk/catalog for info" : String).data.take 300) := by
  have h := extract_graceful
  exact ⟨h.1 _ _, h.2.2.1, h.2.2.2 _ _ _ h.2.2.1⟩
